import Mathlib

/-!
Shallow embedding of the photo-tutor color pipeline of this repository:
`color_transfer.py` (ColorTransferEngine), `lut_generator.py` (LUTGenerator)
and `xmp_exporter.py` (XMPExporter), together with theorems settling the
specification's claims about them.

Conventions used throughout:
* numpy float64 arrays are idealised as exact rationals in the LUT
  subsystem (whose arithmetic is field arithmetic plus decimal rounding)
  and as exact reals in the transfer engine (whose statistics use square
  roots, exponentials and arctangents);
* images are flat pixel lists; every array operation the code performs is
  pointwise or a whole-image reduction, so the 2-D shape only matters for
  the identity-lattice layout, which is tracked through flat indices.
-/

/-! ## Generic index bookkeeping for flattened 3-D lattices -/

/-- Decompose a flat index `i < N^3` into C-order coordinates. -/
lemma index_decomp (N i : ℕ) (h : i < N ^ 3) :
    (i / N ^ 2) * N ^ 2 + (i / N % N) * N + i % N = i ∧
    i / N ^ 2 < N ∧ i / N % N < N ∧ i % N < N := by
  have hN : 0 < N := by
    rcases Nat.eq_zero_or_pos N with h0 | h0
    · subst h0; simp at h
    · exact h0
  refine ⟨?_, ?_, Nat.mod_lt _ hN, Nat.mod_lt _ hN⟩
  · have h1 : N * (i / N) + i % N = i := Nat.div_add_mod i N
    have h2 : N * (i / N / N) + i / N % N = i / N := Nat.div_add_mod (i / N) N
    have h3 : i / N / N = i / N ^ 2 := by
      rw [Nat.div_div_eq_div_mul, pow_two]
    rw [h3] at h2
    calc (i / N ^ 2) * N ^ 2 + (i / N % N) * N + i % N
        = (N * (i / N ^ 2) + i / N % N) * N + i % N := by ring
      _ = (i / N) * N + i % N := by rw [h2]
      _ = N * (i / N) + i % N := by ring
      _ = i := h1
  · have : i / N ^ 2 < N ↔ i < N * N ^ 2 := Nat.div_lt_iff_lt_mul (by positivity)
    rw [this]
    calc i < N ^ 3 := h
      _ = N * N ^ 2 := by ring

/-- Recompose C-order coordinates `A B C < N` into a flat index and read
its coordinates back. -/
lemma tri_index_unfold (N A B C : ℕ) (hA : A < N) (hB : B < N) (hC : C < N) :
    (A * N ^ 2 + B * N + C) / N ^ 2 = A ∧
    (A * N ^ 2 + B * N + C) / N % N = B ∧
    (A * N ^ 2 + B * N + C) % N = C := by
  have hN : 0 < N := lt_of_le_of_lt (Nat.zero_le _) hC
  have hkey : A * N ^ 2 + B * N + C = C + N * (B + N * A) := by ring
  have hdiv : (A * N ^ 2 + B * N + C) / N = B + N * A := by
    rw [hkey, Nat.add_mul_div_left _ _ hN, Nat.div_eq_of_lt hC, Nat.zero_add]
  refine ⟨?_, ?_, ?_⟩
  · have : (A * N ^ 2 + B * N + C) / N ^ 2 = (A * N ^ 2 + B * N + C) / N / N := by
      rw [Nat.div_div_eq_div_mul, pow_two]
    rw [this, hdiv, Nat.add_mul_div_left _ _ hN, Nat.div_eq_of_lt hB, Nat.zero_add]
  · rw [hdiv, Nat.add_mul_mod_self_left, Nat.mod_eq_of_lt hB]
  · rw [hkey, Nat.add_mul_mod_self_left, Nat.mod_eq_of_lt hC]

lemma tri_index_lt (N A B C : ℕ) (hA : A < N) (hB : B < N) (hC : C < N) :
    A * N ^ 2 + B * N + C < N ^ 3 := by
  calc A * N ^ 2 + B * N + C
      ≤ (N - 1) * N ^ 2 + (N - 1) * N + (N - 1) := by
        gcongr <;> omega
    _ < N ^ 3 := by
        have hN : 0 < N := lt_of_le_of_lt (Nat.zero_le _) hA
        cases' N with n
        · omega
        · simp only [Nat.add_sub_cancel]
          ring_nf
          nlinarith

/-- `getD` through a `flatMap` over `List.range` whose blocks all have
length `m`. -/
lemma getD_flatMap_range {α : Type} (d : α) (g : ℕ → List α) (m : ℕ)
    (hg : ∀ a, (g a).length = m) :
    ∀ n : ℕ, ((List.range n).flatMap g).length = n * m ∧
      ∀ j, j < n * m → ((List.range n).flatMap g).getD j d = (g (j / m)).getD (j % m) d := by
  intro n
  induction n with
  | zero => simp
  | succ n ih =>
    have hsplit : (List.range (n + 1)).flatMap g = (List.range n).flatMap g ++ g n := by
      rw [List.range_succ, List.flatMap_append]
      simp
    constructor
    · rw [hsplit, List.length_append, ih.1, hg]
      ring
    · intro j hj
      rcases lt_or_le j (n * m) with hlt | hge
      · rw [hsplit, List.getD_append _ _ _ _ (by rw [ih.1]; exact hlt)]
        exact ih.2 j hlt
      · have hm : 0 < m := by
          rcases Nat.eq_zero_or_pos m with h0 | h0
          · subst h0; simp at hj
          · exact h0
        obtain ⟨r, hr⟩ : ∃ r, j = n * m + r := ⟨j - n * m, by omega⟩
        have hrm : r < m := by
          have : n * m + r < (n + 1) * m := by rw [← hr]; exact hj
          nlinarith
        subst hr
        have hdiv : (n * m + r) / m = n := by
          rw [Nat.add_comm, Nat.mul_comm n m, Nat.add_mul_div_left _ _ hm,
            Nat.div_eq_of_lt hrm]
          omega
        have hmod : (n * m + r) % m = r := by
          rw [Nat.add_comm, Nat.mul_comm n m, Nat.add_mul_mod_self_left,
            Nat.mod_eq_of_lt hrm]
        rw [hsplit, hdiv, hmod,
          List.getD_append_right _ _ _ _ (by rw [ih.1]; omega)]
        rw [ih.1]
        congr 1
        omega

lemma getD_map_range {α : Type} (d : α) (f : ℕ → α) (n j : ℕ) (hj : j < n) :
    ((List.range n).map f).getD j d = f j := by
  rw [List.getD_eq_getElem _ _ (by simpa using hj)]
  simp

/-! ## LUT subsystem (`lut_generator.py`), exact-rational model -/

/-- Round half to even, as numpy `.round()` and Python float formatting do. -/
def round_half_even (q : ℚ) : ℤ :=
  if q - ⌊q⌋ < 1/2 then ⌊q⌋
  else if 1/2 < q - ⌊q⌋ then ⌊q⌋ + 1
  else if ⌊q⌋ % 2 = 0 then ⌊q⌋ else ⌊q⌋ + 1

/-- Value carried by one `%.6f`-formatted decimal field of a `.cube` data
line (six digits after the decimal point). -/
def fmt6 (q : ℚ) : ℚ := (round_half_even (q * 1000000) : ℚ) / 1000000

/-- numpy `np.clip(x, lo, hi)` on scalars. -/
def npClipQ (x lo hi : ℚ) : ℚ := min (max x lo) hi

/-- A 3-D LUT: `size` is the per-axis resolution `N`, `data` the flat
C-order contents of the numpy array of shape `(N, N, N, 3)`, indexed
`(R, G, B)` (B fastest in memory). -/
structure Lut where
  size : ℕ
  data : List (ℚ × ℚ × ℚ)

/-- `lut_data[ri, gi, bi]` of `LUTGenerator`. -/
def lutGet (lut : Lut) (r g b : ℕ) : ℚ × ℚ × ℚ :=
  lut.data.getD (r * lut.size ^ 2 + g * lut.size + b) (0, 0, 0)

/-- One line of a `.cube` file, at the granularity `export_cube` writes
and `load_cube` distinguishes. A `data` line carries the three parsed
floats of a `"%.6f %.6f %.6f"` row. -/
inductive CubeLine where
  | title : String → CubeLine
  | lutSize : ℕ → CubeLine
  | domainMin : CubeLine
  | domainMax : CubeLine
  | blank : CubeLine
  | comment : String → CubeLine
  | data : ℚ → ℚ → ℚ → CubeLine
deriving DecidableEq

/-- The `N³` data rows `export_cube` writes: B outermost, G middle, R
innermost, each value formatted with `%.6f`. -/
def cube_data_rows (lut : Lut) : List (ℚ × ℚ × ℚ) :=
  (List.range lut.size).flatMap fun bi =>
    (List.range lut.size).flatMap fun gi =>
      (List.range lut.size).map fun ri =>
        let q := lutGet lut ri gi bi
        (fmt6 q.1, fmt6 q.2.1, fmt6 q.2.2)

/-- `LUTGenerator.export_cube`: TITLE, LUT_3D_SIZE, DOMAIN_MIN/MAX
header, then the `N³` data rows. -/
def export_cube (lut : Lut) (t : String) : List CubeLine :=
  [CubeLine.title t, CubeLine.lutSize lut.size, CubeLine.blank,
   CubeLine.domainMin, CubeLine.domainMax, CubeLine.blank] ++
  (cube_data_rows lut).map fun q => CubeLine.data q.1 q.2.1 q.2.2

/-- The line scan of `load_cube`: blank/comment/TITLE/DOMAIN lines are
skipped, the last LUT_3D_SIZE wins, data rows are collected in order. -/
def scan_cube_lines : List CubeLine → Option ℕ → List (ℚ × ℚ × ℚ) →
    Option ℕ × List (ℚ × ℚ × ℚ)
  | [], sz, acc => (sz, acc)
  | CubeLine.lutSize n :: rest, _, acc => scan_cube_lines rest (some n) acc
  | CubeLine.data r g b :: rest, sz, acc => scan_cube_lines rest sz (acc ++ [(r, g, b)])
  | _ :: rest, sz, acc => scan_cube_lines rest sz acc

/-- `LUTGenerator.load_cube`: parse the size, check the data-row count
against `N³`, and fill `lut[ri, gi, bi]` walking B-outer/G-mid/R-inner
over the rows (a missing size or a row-count mismatch is a
`ValueError`, modelled as `none`). -/
def load_cube (lines : List CubeLine) : Option Lut :=
  match scan_cube_lines lines none [] with
  | (none, _) => none
  | (some size, rows) =>
    if rows.length = size ^ 3 then
      some { size := size,
             data := (List.range size).flatMap fun ri =>
               (List.range size).flatMap fun gi =>
                 (List.range size).map fun bi =>
                   rows.getD (bi * size ^ 2 + gi * size + ri) (0, 0, 0) }
    else none

/-! ### Hald CLUT encode/decode -/

/-- A uint8 RGB image: `pixels` is the flat row-major pixel list. -/
structure HaldImage where
  width : ℕ
  height : ℕ
  pixels : List (ℕ × ℕ × ℕ)
deriving DecidableEq

/-- The `level = round(width ** (1/3)); level ** 3 == width` check of
`hald_to_lut`: the exact integer cube root, when the side is a perfect
cube. -/
def cube_root_of (w : ℕ) : Option ℕ :=
  (List.range (w + 1)).find? fun l => l * l * l = w

/-- `LUTGenerator.hald_to_lut`: reject a non-square image, then a side
that is not a perfect cube; otherwise set `N = level²` and fill
`lut[i % N, (i / N) % N, i / N²] = pixels[i] / 255` for every flat pixel
index `i` (`ValueError` modelled as `none`). -/
def hald_to_lut (img : HaldImage) : Option Lut :=
  if img.width ≠ img.height then none
  else
    match cube_root_of img.width with
    | none => none
    | some level =>
      let N := level * level
      some { size := N,
             data := (List.range (N ^ 3)).map fun j =>
               let p := img.pixels.getD
                 ((j % N) * N ^ 2 + (j / N % N) * N + j / N ^ 2) (0, 0, 0)
               ((p.1 : ℚ) / 255, (p.2.1 : ℚ) / 255, (p.2.2 : ℚ) / 255) }

/-- `np.clip(x * 255, 0, 255).round().astype(np.uint8)` on one channel. -/
def quant255 (x : ℚ) : ℕ := (round_half_even (npClipQ (x * 255) 0 255)).toNat

/-- `LUTGenerator.lut_to_hald`: reject a LUT whose axis size is not a
perfect square (`level = round(N ** 0.5); level * level == N`), else emit
the side-`level³` square image with pixel `i` read from
`lut[i % N, (i / N) % N, i / N²]`. -/
def lut_to_hald (lut : Lut) : Option HaldImage :=
  let N := lut.size
  let level := Nat.sqrt N
  if level * level ≠ N then none
  else
    let imgSize := level ^ 3
    some { width := imgSize, height := imgSize,
           pixels := (List.range (imgSize * imgSize)).map fun i =>
             let q := lutGet lut (i % N) (i / N % N) (i / N ^ 2)
             (quant255 q.1, quant255 q.2.1, quant255 q.2.2) }

/-! ### Identity lattice image -/

/-- `np.linspace(0, 1, s)`. -/
def linspace01 (s : ℕ) : List ℚ :=
  if s = 1 then [0]
  else (List.range s).map fun t => (t : ℚ) / ((s : ℚ) - 1)

/-- `LUTGenerator._create_identity_image`, flattened: meshgrid of the
three linspaces with `indexing='ij'`, channels stacked last, so the
C-order pixel at flat index `i*s² + j*s + k` is
`(lin[i], lin[j], lin[k])` — the image is then viewed as shape
`(s*s, s, 3)`. -/
def create_identity_image (s : ℕ) : List (ℚ × ℚ × ℚ) :=
  (List.range s).flatMap fun i =>
    (List.range s).flatMap fun j =>
      (List.range s).map fun k =>
        ((linspace01 s).getD i 0, (linspace01 s).getD j 0, (linspace01 s).getD k 0)

/-- The pixel sequence the claim asserts: R varying fastest, then G,
then B slowest across the flattened identity image. -/
def claimed_r_fastest_pixel (s i : ℕ) : ℚ × ℚ × ℚ :=
  ((linspace01 s).getD (i % s) 0, (linspace01 s).getD (i / s % s) 0,
   (linspace01 s).getD (i / s ^ 2) 0)

/-! ### Indexing through the triple-nested row lists -/

lemma triple_nest_spec {α : Type} (d : α) (N : ℕ) (f : ℕ → ℕ → ℕ → α) :
    ((List.range N).flatMap fun a => (List.range N).flatMap fun b =>
        (List.range N).map fun c => f a b c).length = N ^ 3 ∧
    ∀ a b c, a < N → b < N → c < N →
      ((List.range N).flatMap fun a => (List.range N).flatMap fun b =>
          (List.range N).map fun c => f a b c).getD (a * N ^ 2 + b * N + c) d
        = f a b c := by
  have hinner : ∀ a, ((List.range N).flatMap fun b =>
      (List.range N).map fun c => f a b c).length = N * N := by
    intro a
    exact (getD_flatMap_range d _ N (by intro b; simp) N).1
  have houter := getD_flatMap_range d
    (fun a => (List.range N).flatMap fun b => (List.range N).map fun c => f a b c)
    (N * N) hinner N
  constructor
  · rw [houter.1]; ring
  · intro a b c ha hb hc
    have hbc : b * N + c < N * N := by
      calc b * N + c < b * N + N := by omega
        _ = (b + 1) * N := by ring
        _ ≤ N * N := by
          have : b + 1 ≤ N := hb
          exact Nat.mul_le_mul_right N this
    have hj : a * N ^ 2 + b * N + c < N * (N * N) := by
      have := tri_index_lt N a b c ha hb hc
      calc a * N ^ 2 + b * N + c < N ^ 3 := this
        _ = N * (N * N) := by ring
    have hdiv : (a * N ^ 2 + b * N + c) / (N * N) = a := by
      have h := (tri_index_unfold N a b c ha hb hc).1
      rw [pow_two] at h ⊢
      exact h
    have hmod : (a * N ^ 2 + b * N + c) % (N * N) = b * N + c := by
      have harr : a * N ^ 2 + b * N + c = (b * N + c) + (N * N) * a := by ring
      rw [harr, Nat.add_mul_mod_self_left, Nat.mod_eq_of_lt hbc]
    rw [houter.2 _ hj, hdiv, hmod]
    have hin := getD_flatMap_range d (fun b => (List.range N).map fun c => f a b c)
      N (by intro b; simp) N
    have hdiv2 : (b * N + c) / N = b := by
      have harr : b * N + c = c + N * b := by ring
      rw [harr, Nat.add_mul_div_left _ _ (by omega : 0 < N), Nat.div_eq_of_lt hc]
      omega
    have hmod2 : (b * N + c) % N = c := by
      have harr : b * N + c = c + N * b := by ring
      rw [harr, Nat.add_mul_mod_self_left, Nat.mod_eq_of_lt hc]
    rw [hin.2 _ hbc, hdiv2, hmod2, getD_map_range _ _ _ _ hc]

/-! ### Claim C4: `.cube` export/import round trip -/

lemma round_half_even_close (x : ℚ) : |(round_half_even x : ℚ) - x| ≤ 1/2 := by
  have h0 : ((⌊x⌋ : ℤ) : ℚ) ≤ x := Int.floor_le x
  have h1 : x < (⌊x⌋ : ℚ) + 1 := Int.lt_floor_add_one x
  unfold round_half_even
  split_ifs with hc1 hc2 hc3 <;>
    · push_cast
      rw [abs_le]
      constructor <;> linarith

lemma fmt6_close (q : ℚ) : |fmt6 q - q| ≤ 1/1000000 := by
  have h := round_half_even_close (q * 1000000)
  unfold fmt6
  have : (round_half_even (q * 1000000) : ℚ) / 1000000 - q
      = ((round_half_even (q * 1000000) : ℚ) - q * 1000000) / 1000000 := by
    ring
  rw [this, abs_div]
  rw [show |(1000000 : ℚ)| = 1000000 by norm_num]
  linarith [h]

lemma scan_cube_lines_data (rows : List (ℚ × ℚ × ℚ)) :
    ∀ sz acc, scan_cube_lines (rows.map fun q => CubeLine.data q.1 q.2.1 q.2.2) sz acc
      = (sz, acc ++ rows) := by
  induction rows with
  | nil => intro sz acc; simp [scan_cube_lines]
  | cons q rest ih =>
    intro sz acc
    simp only [List.map_cons, scan_cube_lines, ih]
    simp

lemma scan_export_cube (lut : Lut) (t : String) :
    scan_cube_lines (export_cube lut t) none [] = (some lut.size, cube_data_rows lut) := by
  unfold export_cube
  simp only [List.cons_append, List.nil_append, scan_cube_lines]
  show scan_cube_lines ((cube_data_rows lut).map fun q => CubeLine.data q.1 q.2.1 q.2.2)
    (some lut.size) [] = _
  rw [scan_cube_lines_data]
  simp

/-- C4. Exporting any in-range LUT with `export_cube` and parsing the
result with `load_cube` succeeds and returns a LUT of the same size whose
every entry is the `%.6f`-rounded original, hence within `1e-6` of it;
the `N³` data rows are written (and read back) in B-outermost, G-middle,
R-innermost order. -/
theorem cube_export_load_roundtrip (lut : Lut) (t : String)
    (hlen : lut.data.length = lut.size ^ 3)
    (hrange : ∀ q ∈ lut.data, 0 ≤ q.1 ∧ q.1 ≤ 1 ∧ 0 ≤ q.2.1 ∧ q.2.1 ≤ 1 ∧
      0 ≤ q.2.2 ∧ q.2.2 ≤ 1) :
    (cube_data_rows lut).length = lut.size ^ 3 ∧
    (∀ ri gi bi, ri < lut.size → gi < lut.size → bi < lut.size →
      (cube_data_rows lut).getD (bi * lut.size ^ 2 + gi * lut.size + ri) (0, 0, 0)
        = (fmt6 (lutGet lut ri gi bi).1, fmt6 (lutGet lut ri gi bi).2.1,
           fmt6 (lutGet lut ri gi bi).2.2)) ∧
    ∃ lut', load_cube (export_cube lut t) = some lut' ∧
      lut'.size = lut.size ∧
      ∀ r g b, r < lut.size → g < lut.size → b < lut.size →
        lutGet lut' r g b
          = (fmt6 (lutGet lut r g b).1, fmt6 (lutGet lut r g b).2.1,
             fmt6 (lutGet lut r g b).2.2) ∧
        |(lutGet lut' r g b).1 - (lutGet lut r g b).1| ≤ 1/1000000 ∧
        |(lutGet lut' r g b).2.1 - (lutGet lut r g b).2.1| ≤ 1/1000000 ∧
        |(lutGet lut' r g b).2.2 - (lutGet lut r g b).2.2| ≤ 1/1000000 := by
  have hrows := triple_nest_spec ((0 : ℚ), (0 : ℚ), (0 : ℚ)) lut.size
    (fun bi gi ri =>
      (fmt6 (lutGet lut ri gi bi).1, fmt6 (lutGet lut ri gi bi).2.1,
       fmt6 (lutGet lut ri gi bi).2.2))
  have hrows_len : (cube_data_rows lut).length = lut.size ^ 3 := hrows.1
  have hrows_getD : ∀ ri gi bi, ri < lut.size → gi < lut.size → bi < lut.size →
      (cube_data_rows lut).getD (bi * lut.size ^ 2 + gi * lut.size + ri) (0, 0, 0)
        = (fmt6 (lutGet lut ri gi bi).1, fmt6 (lutGet lut ri gi bi).2.1,
           fmt6 (lutGet lut ri gi bi).2.2) := by
    intro ri gi bi hri hgi hbi
    exact hrows.2 bi gi ri hbi hgi hri
  refine ⟨hrows_len, hrows_getD, ?_⟩
  have hload : load_cube (export_cube lut t) = some
      { size := lut.size,
        data := (List.range lut.size).flatMap fun ri =>
          (List.range lut.size).flatMap fun gi =>
            (List.range lut.size).map fun bi =>
              (cube_data_rows lut).getD (bi * lut.size ^ 2 + gi * lut.size + ri)
                (0, 0, 0) } := by
    unfold load_cube
    rw [scan_export_cube]
    simp [hrows_len]
  refine ⟨_, hload, rfl, ?_⟩
  intro r g b hr hg hb
  have hdata := triple_nest_spec ((0 : ℚ), (0 : ℚ), (0 : ℚ)) lut.size
    (fun ri gi bi =>
      (cube_data_rows lut).getD (bi * lut.size ^ 2 + gi * lut.size + ri) (0, 0, 0))
  have hget : lutGet
      { size := lut.size,
        data := (List.range lut.size).flatMap fun ri =>
          (List.range lut.size).flatMap fun gi =>
            (List.range lut.size).map fun bi =>
              (cube_data_rows lut).getD (bi * lut.size ^ 2 + gi * lut.size + ri)
                (0, 0, 0) } r g b
      = (fmt6 (lutGet lut r g b).1, fmt6 (lutGet lut r g b).2.1,
         fmt6 (lutGet lut r g b).2.2) := by
    show ((List.range lut.size).flatMap fun ri =>
        (List.range lut.size).flatMap fun gi =>
          (List.range lut.size).map fun bi =>
            (cube_data_rows lut).getD (bi * lut.size ^ 2 + gi * lut.size + ri)
              (0, 0, 0)).getD (r * lut.size ^ 2 + g * lut.size + b) (0, 0, 0)
      = _
    rw [hdata.2 r g b hr hg hb]
    exact hrows_getD r g b hr hg hb
  refine ⟨hget, ?_, ?_, ?_⟩ <;>
    · rw [hget]
      exact fmt6_close _

/-- C4 witness: the round trip at a concrete 1×1×1 LUT. -/
theorem cube_export_load_roundtrip_witness :
    ({ size := 1, data := [(1/2, 0, 1)] } : Lut).data.length
        = ({ size := 1, data := [(1/2, 0, 1)] } : Lut).size ^ 3 ∧
    ((cube_data_rows { size := 1, data := [(1/2, 0, 1)] }).length = 1 ^ 3 ∧
      (∀ ri gi bi, ri < 1 → gi < 1 → bi < 1 → True) ∧
      ∃ lut', load_cube (export_cube { size := 1, data := [(1/2, 0, 1)] } ("")) = some lut' ∧
        lut'.size = 1) := by
  have h := cube_export_load_roundtrip { size := 1, data := [(1/2, 0, 1)] } ("")
    (by simp) (by intro q hq; simp at hq; subst hq; norm_num)
  refine ⟨by simp, by simpa using h.1, fun _ _ _ _ _ _ => trivial, ?_⟩
  obtain ⟨lut', hload, hsize, _⟩ := h.2.2
  exact ⟨lut', hload, hsize⟩


/-! ### Claim C5: Hald CLUT round trip -/

lemma quant255_of_natcast (p : ℕ) (hp : p ≤ 255) : quant255 ((p : ℚ) / 255) = p := by
  unfold quant255
  have h1 : ((p : ℚ) / 255) * 255 = (p : ℚ) := by field_simp
  rw [h1]
  have hcl : npClipQ ((p : ℚ)) 0 255 = (p : ℚ) := by
    unfold npClipQ
    rw [max_eq_left (by positivity), min_eq_left (by exact_mod_cast hp)]
  rw [hcl]
  unfold round_half_even
  rw [Int.floor_natCast, if_pos (by push_cast; norm_num)]
  simp

lemma getD_prod_mem (l : List (ℕ × ℕ × ℕ)) (i : ℕ) (h : i < l.length) :
    l.getD i (0, 0, 0) ∈ l := by
  rw [List.getD_eq_getElem _ _ h]
  exact List.getElem_mem h

lemma hald_to_lut_eq (H : HaldImage) (level : ℕ) (hsq : H.width = H.height)
    (hcube : cube_root_of H.width = some level) :
    hald_to_lut H = some
      { size := level * level,
        data := (List.range ((level * level) ^ 3)).map fun j =>
          let p := H.pixels.getD
            ((j % (level * level)) * (level * level) ^ 2
              + (j / (level * level) % (level * level)) * (level * level)
              + j / (level * level) ^ 2) (0, 0, 0)
          ((p.1 : ℚ) / 255, (p.2.1 : ℚ) / 255, (p.2.2 : ℚ) / 255) } := by
  unfold hald_to_lut
  rw [if_neg (by simp [hsq]), hcube]

lemma lut_to_hald_eq (lut : Lut) (level : ℕ) (hsize : lut.size = level * level) :
    lut_to_hald lut = some
      { width := level ^ 3, height := level ^ 3,
        pixels := (List.range (level ^ 3 * level ^ 3)).map fun i =>
          let q := lutGet lut (i % (level * level)) (i / (level * level) % (level * level))
            (i / (level * level) ^ 2)
          (quant255 q.1, quant255 q.2.1, quant255 q.2.2) } := by
  simp only [lut_to_hald]
  rw [hsize, Nat.sqrt_eq, if_neg (by simp)]

/-- C5. Decoding any valid Hald CLUT image (`hald_to_lut`) and
re-encoding it (`lut_to_hald`) reproduces the image: same dimensions,
and per-channel error at most `1/255` on every pixel (the pixels are in
fact reproduced exactly). -/
theorem hald_lut_roundtrip (H : HaldImage) (level : ℕ)
    (hsq : H.width = H.height)
    (hcube : cube_root_of H.width = some level)
    (hlen : H.pixels.length = H.width * H.width)
    (hpix : ∀ p ∈ H.pixels, p.1 ≤ 255 ∧ p.2.1 ≤ 255 ∧ p.2.2 ≤ 255) :
    ∃ lut H', hald_to_lut H = some lut ∧ lut_to_hald lut = some H' ∧
      H'.width = H.width ∧ H'.height = H.height ∧
      H'.pixels.length = H.pixels.length ∧
      ∀ i, i < H.pixels.length →
        |((H'.pixels.getD i (0, 0, 0)).1 : ℚ) - ((H.pixels.getD i (0, 0, 0)).1 : ℚ)|
            ≤ 1/255 ∧
        |((H'.pixels.getD i (0, 0, 0)).2.1 : ℚ) - ((H.pixels.getD i (0, 0, 0)).2.1 : ℚ)|
            ≤ 1/255 ∧
        |((H'.pixels.getD i (0, 0, 0)).2.2 : ℚ) - ((H.pixels.getD i (0, 0, 0)).2.2 : ℚ)|
            ≤ 1/255 := by
  have hlevel : level * level * level = H.width := by
    have := List.find?_some hcube
    simpa using this
  have hdecode := hald_to_lut_eq H level hsq hcube
  have hencode := lut_to_hald_eq _ level (rfl :
    (({ size := level * level,
        data := (List.range ((level * level) ^ 3)).map fun j =>
          let p := H.pixels.getD
            ((j % (level * level)) * (level * level) ^ 2
              + (j / (level * level) % (level * level)) * (level * level)
              + j / (level * level) ^ 2) (0, 0, 0)
          ((p.1 : ℚ) / 255, (p.2.1 : ℚ) / 255, (p.2.2 : ℚ) / 255) } : Lut)).size
      = level * level)
  have hw3 : level ^ 3 = H.width := by rw [← hlevel]; ring
  have hNcube : level ^ 3 * level ^ 3 = (level * level) ^ 3 := by ring
  have hwlen : H.pixels.length = (level * level) ^ 3 := by
    rw [hlen, ← hw3, ← hNcube]
  refine ⟨_, _, hdecode, hencode, hw3, by rw [hw3, hsq], ?_, ?_⟩
  · simp [hwlen, hNcube]
  · intro i hi
    have hiN : i < (level * level) ^ 3 := by rw [← hwlen]; exact hi
    have hiI : i < level ^ 3 * level ^ 3 := by rw [hNcube]; exact hiN
    obtain ⟨hisum, hiA, hiB, hiC⟩ := index_decomp (level * level) i hiN
    have hpix_i : ((List.range (level ^ 3 * level ^ 3)).map fun i =>
        let q := lutGet
          { size := level * level,
            data := (List.range ((level * level) ^ 3)).map fun j =>
              let p := H.pixels.getD
                ((j % (level * level)) * (level * level) ^ 2
                  + (j / (level * level) % (level * level)) * (level * level)
                  + j / (level * level) ^ 2) (0, 0, 0)
              ((p.1 : ℚ) / 255, (p.2.1 : ℚ) / 255, (p.2.2 : ℚ) / 255) }
          (i % (level * level)) (i / (level * level) % (level * level))
          (i / (level * level) ^ 2)
        (quant255 q.1, quant255 q.2.1, quant255 q.2.2)).getD i (0, 0, 0)
        = (let q := lutGet
            { size := level * level,
              data := (List.range ((level * level) ^ 3)).map fun j =>
                let p := H.pixels.getD
                  ((j % (level * level)) * (level * level) ^ 2
                    + (j / (level * level) % (level * level)) * (level * level)
                    + j / (level * level) ^ 2) (0, 0, 0)
                ((p.1 : ℚ) / 255, (p.2.1 : ℚ) / 255, (p.2.2 : ℚ) / 255) }
            (i % (level * level)) (i / (level * level) % (level * level))
            (i / (level * level) ^ 2)
           (quant255 q.1, quant255 q.2.1, quant255 q.2.2)) :=
      getD_map_range _ _ _ _ hiI
    have hj : i % (level * level) * (level * level) ^ 2
        + (i / (level * level) % (level * level)) * (level * level)
        + i / (level * level) ^ 2 < (level * level) ^ 3 :=
      tri_index_lt _ _ _ _ hiC hiB hiA
    have hget : lutGet
        { size := level * level,
          data := (List.range ((level * level) ^ 3)).map fun j =>
            let p := H.pixels.getD
              ((j % (level * level)) * (level * level) ^ 2
                + (j / (level * level) % (level * level)) * (level * level)
                + j / (level * level) ^ 2) (0, 0, 0)
            ((p.1 : ℚ) / 255, (p.2.1 : ℚ) / 255, (p.2.2 : ℚ) / 255) }
        (i % (level * level)) (i / (level * level) % (level * level))
        (i / (level * level) ^ 2)
        = (((H.pixels.getD i (0, 0, 0)).1 : ℚ) / 255,
           ((H.pixels.getD i (0, 0, 0)).2.1 : ℚ) / 255,
           ((H.pixels.getD i (0, 0, 0)).2.2 : ℚ) / 255) := by
      unfold lutGet
      rw [getD_map_range _ _ _ _ hj]
      obtain ⟨hu1, hu2, hu3⟩ := tri_index_unfold (level * level)
        (i % (level * level)) (i / (level * level) % (level * level))
        (i / (level * level) ^ 2) hiC hiB hiA
      simp only [hu1, hu2, hu3, hisum]
    have hmem := getD_prod_mem H.pixels i hi
    obtain ⟨hb1, hb2, hb3⟩ := hpix _ hmem
    rw [hpix_i]
    simp only [hget]
    rw [quant255_of_natcast _ hb1, quant255_of_natcast _ hb2, quant255_of_natcast _ hb3]
    norm_num

/-- C5 witness: the round trip at the concrete 1×1 image with one black
pixel (level 1). -/
theorem hald_lut_roundtrip_witness :
    ({ width := 1, height := 1, pixels := [(0, 0, 0)] } : HaldImage).width
        = ({ width := 1, height := 1, pixels := [(0, 0, 0)] } : HaldImage).height ∧
    cube_root_of 1 = some 1 ∧
    (∃ lut H',
      hald_to_lut { width := 1, height := 1, pixels := [(0, 0, 0)] } = some lut ∧
      lut_to_hald lut = some H' ∧ H'.width = 1 ∧ H'.height = 1) := by
  have h := hald_lut_roundtrip { width := 1, height := 1, pixels := [(0, 0, 0)] } 1
    rfl (by decide) (by decide) (by decide)
  obtain ⟨lut, H', h1, h2, h3, h4, -⟩ := h
  exact ⟨rfl, by decide, lut, H', h1, h2, h3, h4⟩

/-! ### Claim C8: Hald/LUT format errors -/

/-- C8. `hald_to_lut` rejects (produces no LUT) whenever the image is
not square, and whenever its side is not a perfect cube — the squareness
check runs first, so a non-square image is rejected before any cube-root
or index computation; `lut_to_hald` rejects (produces no image) whenever
the LUT axis size is not a perfect square. -/
theorem hald_format_errors :
    (∀ H : HaldImage, H.width ≠ H.height → hald_to_lut H = none) ∧
    (∀ H : HaldImage, (¬ ∃ level, level * level * level = H.width) →
      hald_to_lut H = none) ∧
    (∀ lut : Lut, (¬ ∃ level, level * level = lut.size) → lut_to_hald lut = none) := by
  refine ⟨?_, ?_, ?_⟩
  · intro H h
    unfold hald_to_lut
    rw [if_pos h]
  · intro H h
    have hnone : cube_root_of H.width = none := by
      unfold cube_root_of
      rw [List.find?_eq_none]
      intro l _
      simp only [decide_eq_true_eq]
      exact fun hl => h ⟨l, hl⟩
    unfold hald_to_lut
    by_cases hsq : H.width ≠ H.height
    · rw [if_pos hsq]
    · rw [if_neg hsq, hnone]
  · intro lut h
    have hne : Nat.sqrt lut.size * Nat.sqrt lut.size ≠ lut.size :=
      fun heq => h ⟨Nat.sqrt lut.size, heq⟩
    simp only [lut_to_hald]
    rw [if_pos hne]

/-- C8 witness: a 2×3 image, a 5×5 image (5 is not a cube), and a LUT of
axis size 3 (not a perfect square) are all rejected. -/
theorem hald_format_errors_witness :
    ((2 : ℕ) ≠ 3 ∧
      hald_to_lut { width := 2, height := 3, pixels := [] } = none) ∧
    ((¬ ∃ level : ℕ, level * level * level = 5) ∧
      hald_to_lut { width := 5, height := 5, pixels := [] } = none) ∧
    ((¬ ∃ level : ℕ, level * level = 3) ∧
      lut_to_hald { size := 3, data := [] } = none) := by
  have h5 : ¬ ∃ level : ℕ, level * level * level = 5 := by
    rintro ⟨l, hl⟩
    have hub : l ≤ 2 := by nlinarith
    interval_cases l <;> omega
  have h3 : ¬ ∃ level : ℕ, level * level = 3 := by
    rintro ⟨l, hl⟩
    have hub : l ≤ 2 := by nlinarith
    interval_cases l <;> omega
  exact ⟨⟨by decide, hald_format_errors.1 _ (by decide)⟩,
    ⟨h5, hald_format_errors.2.1 _ h5⟩,
    ⟨h3, hald_format_errors.2.2 _ h3⟩⟩

/-! ### Claim C6: identity-lattice image layout -/

/-- C6 (amended). The flattened identity-lattice image has `(s*s)*s`
pixels — the `(s·s, s, 3)` image shape — and the pixel at flat index `i`
is `(lin[i / s²], lin[i / s mod s], lin[i mod s])`: the pixels enumerate
all lattice combinations with the B channel varying fastest and the R
channel slowest (not R fastest as claimed). -/
theorem identity_image_layout (s i : ℕ) (hi : i < s ^ 3) :
    (create_identity_image s).length = (s * s) * s ∧
    (create_identity_image s).getD i (0, 0, 0)
      = ((linspace01 s).getD (i / s ^ 2) 0, (linspace01 s).getD (i / s % s) 0,
         (linspace01 s).getD (i % s) 0) := by
  have hspec := triple_nest_spec ((0 : ℚ), (0 : ℚ), (0 : ℚ)) s
    (fun a b c => ((linspace01 s).getD a 0, (linspace01 s).getD b 0,
      (linspace01 s).getD c 0))
  obtain ⟨hisum, hiA, hiB, hiC⟩ := index_decomp s i hi
  constructor
  · unfold create_identity_image
    rw [hspec.1]
    ring
  · have := hspec.2 (i / s ^ 2) (i / s % s) (i % s) hiA hiB hiC
    rw [hisum] at this
    exact this

/-- C6 witness: the layout equation at `s = 2`, `i = 5`. -/
theorem identity_image_layout_witness :
    5 < 2 ^ 3 ∧
    ((create_identity_image 2).length = (2 * 2) * 2 ∧
      (create_identity_image 2).getD 5 (0, 0, 0)
        = ((linspace01 2).getD (5 / 2 ^ 2) 0, (linspace01 2).getD (5 / 2 % 2) 0,
           (linspace01 2).getD (5 % 2) 0)) :=
  ⟨by decide, identity_image_layout 2 5 (by decide)⟩

/-- C6 counterexample: in the flattened identity image for `s = 2`, the
second pixel is `(0, 0, 1)` — the B channel moved — whereas an
R-fastest enumeration, as the claim states, would put `(1, 0, 0)`
there. -/
theorem identity_image_not_r_fastest :
    (create_identity_image 2).getD 1 (0, 0, 0) = (0, 0, 1) ∧
    claimed_r_fastest_pixel 2 1 = (1, 0, 0) ∧
    (create_identity_image 2).getD 1 (0, 0, 0) ≠ claimed_r_fastest_pixel 2 1 := by
  have hlin : linspace01 2 = [0, 1] := by
    unfold linspace01
    norm_num [List.range_succ]
  have himg : (create_identity_image 2).getD 1 (0, 0, 0) = (0, 0, 1) := by
    unfold create_identity_image
    norm_num [List.range_succ, hlin]
  have hclaim : claimed_r_fastest_pixel 2 1 = (1, 0, 0) := by
    unfold claimed_r_fastest_pixel
    norm_num [hlin]
  refine ⟨himg, hclaim, ?_⟩
  rw [himg, hclaim]
  simp

/-! ## Color transfer engine (`color_transfer.py`), exact-real model

Pixels in perceptual (LAB) space are triples `(L, A, B) : ℝ × ℝ × ℝ`;
an image is the flat list of its pixels. numpy reductions (`mean`,
`std`, `percentile`, `histogram`) and elementwise array operations are
modelled directly on those lists. -/

noncomputable section

/-- Classical decision of a real-valued comparison, standing in for the
exact Boolean tests the float code performs. -/
def rdec (P : Prop) : Bool := @decide P (Classical.propDecidable P)

lemma rdec_iff (P : Prop) : rdec P = true ↔ P := by
  unfold rdec
  exact @decide_eq_true_iff P (Classical.propDecidable P)

lemma rdec_of (P : Prop) (h : P) : rdec P = true := (rdec_iff P).2 h

lemma rdec_of_not (P : Prop) (h : ¬ P) : rdec P = false := by
  unfold rdec
  exact @decide_eq_false P (Classical.propDecidable P) h

abbrev LabPix := ℝ × ℝ × ℝ

abbrev LabImage := List LabPix

def chL (p : LabPix) : ℝ := p.1

def chA (p : LabPix) : ℝ := p.2.1

def chB (p : LabPix) : ℝ := p.2.2

/-- `np.mean` over a flattened array. -/
def npMean (l : List ℝ) : ℝ := l.sum / l.length

/-- `np.var` (population variance). -/
def npVar (l : List ℝ) : ℝ := npMean (l.map fun x => (x - npMean l) ^ 2)

/-- `np.std` (population standard deviation). -/
def npStd (l : List ℝ) : ℝ := Real.sqrt (npVar l)

/-- `np.clip` on real scalars. -/
def npClip (x lo hi : ℝ) : ℝ := min (max x lo) hi

/-- `np.percentile(l, q)` with the default linear interpolation method:
virtual index `h = q/100·(n-1)` into the sorted data. -/
def np_percentile (l : List ℝ) (q : ℝ) : ℝ :=
  let s := l.mergeSort fun a b => rdec (a ≤ b)
  let h := q / 100 * ((s.length : ℝ) - 1)
  let k := ⌊h⌋
  let lo := s.getD k.toNat 0
  let hi := s.getD (⌈h⌉.toNat) 0
  lo + (h - (k : ℝ)) * (hi - lo)

/-- `ColorTransferEngine._compute_zone_boundaries`: 25th/75th percentile
of the L channel, clipped to [15,45] and [55,85]. -/
def compute_zone_boundaries (lab : LabImage) : ℝ × ℝ :=
  let L := lab.map chL
  (npClip (np_percentile L 25) 15 45, npClip (np_percentile L 75) 55 85)

structure ChanStats where
  mean : ℝ
  std : ℝ
deriving DecidableEq

structure GlobalStats where
  L : ChanStats
  A : ChanStats
  B : ChanStats
deriving DecidableEq

/-- `ColorTransferEngine._extract_global_stats`. -/
def extract_global_stats (lab : LabImage) : GlobalStats :=
  { L := ⟨npMean (lab.map chL), npStd (lab.map chL)⟩,
    A := ⟨npMean (lab.map chA), npStd (lab.map chA)⟩,
    B := ⟨npMean (lab.map chB), npStd (lab.map chB)⟩ }

/-- The zone membership the code tests with `(L >= lo) & (L < hi)`. -/
def in_zone (lo hi x : ℝ) : Prop := lo ≤ x ∧ x < hi

/-- The sub-image selected by a zone mask. -/
def zone_mask (lab : LabImage) (lo hi : ℝ) : LabImage :=
  lab.filter fun p => rdec (in_zone lo hi (chL p))

structure ZoneChan where
  L : ChanStats
  A : ChanStats
  B : ChanStats
  pixel_fraction : ℝ
deriving DecidableEq

/-- Per-zone statistics: masked mean/std per channel and the pixel
fraction, falling back to whole-image statistics (with fraction 0) when
the zone holds fewer than 10 pixels. `pixel_fraction` carries the
source's `pixel_ratio` value. -/
def zone_channel_stats (lab : LabImage) (lo hi : ℝ) : ZoneChan :=
  let masked := zone_mask lab lo hi
  if masked.length < 10 then
    { L := ⟨npMean (lab.map chL), npStd (lab.map chL)⟩,
      A := ⟨npMean (lab.map chA), npStd (lab.map chA)⟩,
      B := ⟨npMean (lab.map chB), npStd (lab.map chB)⟩,
      pixel_fraction := 0 }
  else
    { L := ⟨npMean (masked.map chL), npStd (masked.map chL)⟩,
      A := ⟨npMean (masked.map chA), npStd (masked.map chA)⟩,
      B := ⟨npMean (masked.map chB), npStd (masked.map chB)⟩,
      pixel_fraction := (masked.length : ℝ) / (lab.length : ℝ) }

structure ZoneStats where
  shadows : ZoneChan
  midtones : ZoneChan
  highlights : ZoneChan
deriving DecidableEq

/-- `ColorTransferEngine._extract_zone_stats` with explicit boundaries:
shadows `[0, shadow_max)`, midtones `[shadow_max, highlight_min)`,
highlights `[highlight_min, 100)`. -/
def extract_zone_stats (lab : LabImage) (shadow_max highlight_min : ℝ) : ZoneStats :=
  { shadows := zone_channel_stats lab 0 shadow_max,
    midtones := zone_channel_stats lab shadow_max highlight_min,
    highlights := zone_channel_stats lab highlight_min 100 }

/-- Membership of a value in histogram bin `k` of `bins` over
`[lo, hi]`, with numpy's closed last bin. -/
def in_bin (lo hi : ℝ) (bins k : ℕ) (x : ℝ) : Prop :=
  if k + 1 = bins then lo + k * ((hi - lo) / bins) ≤ x ∧ x ≤ hi
  else lo + k * ((hi - lo) / bins) ≤ x ∧ x < lo + (k + 1) * ((hi - lo) / bins)

/-- Raw `np.histogram` counts. -/
def hist_counts (vals : List ℝ) (lo hi : ℝ) (bins : ℕ) : List ℝ :=
  (List.range bins).map fun k =>
    ((vals.filter fun x => rdec (in_bin lo hi bins k x)).length : ℝ)

structure ChanHist where
  hist : List ℝ
  bin_edges : List ℝ
  lo : ℝ
  hi : ℝ
deriving DecidableEq

/-- One channel of `_extract_histograms`: counts normalised by
`sum + 1e-10`, plus the bin edges and the value range. -/
def extract_channel_hist (vals : List ℝ) (lo hi : ℝ) : ChanHist :=
  let counts := hist_counts vals lo hi 512
  { hist := counts.map fun c => c / (counts.sum + 1/10^10),
    bin_edges := (List.range 513).map fun k => lo + k * ((hi - lo) / 512),
    lo := lo, hi := hi }

structure HistStats where
  L : ChanHist
  A : ChanHist
  B : ChanHist
deriving DecidableEq

/-- `ColorTransferEngine._extract_histograms` over the fixed LAB
ranges. -/
def extract_histograms (lab : LabImage) : HistStats :=
  { L := extract_channel_hist (lab.map chL) 0 100,
    A := extract_channel_hist (lab.map chA) (-128) 127,
    B := extract_channel_hist (lab.map chB) (-128) 127 }

structure FullStats where
  globalStats : GlobalStats
  zones : ZoneStats
  histograms : HistStats
  zone_boundaries : ℝ × ℝ
deriving DecidableEq

/-- `ColorTransferEngine._extract_full_stats`. -/
def extract_full_stats (lab : LabImage) : FullStats :=
  let bounds := compute_zone_boundaries lab
  { globalStats := extract_global_stats lab,
    zones := extract_zone_stats lab bounds.1 bounds.2,
    histograms := extract_histograms lab,
    zone_boundaries := bounds }

end

/-! ### The four transfer algorithms -/

noncomputable section

/-- `ColorTransferEngine._clamp_lab` on one pixel: channel 0 clipped to
[0,100], channels 1-2 to [-128,127]. -/
def clamp_pix (p : LabPix) : LabPix :=
  (npClip p.1 0 100, npClip p.2.1 (-128) 127, npClip p.2.2 (-128) 127)

/-- `ColorTransferEngine._clamp_lab`. -/
def clamp_lab (img : LabImage) : LabImage := img.map clamp_pix

/-- The epsilon floor `if std < 1e-6: std = 1e-6` used before dividing. -/
def floored_std (s : ℝ) : ℝ := if rdec (s < 1/1000000) then 1/1000000 else s

/-- `ColorTransferEngine._reinhard_channel` on one value. -/
def reinhard_channel (v src_mean src_std ref_mean ref_std : ℝ) : ℝ :=
  (v - src_mean) / floored_std src_std * ref_std + ref_mean

/-- `ColorTransferEngine._transfer_global_lab`: per-channel Reinhard
matching, then clamp. -/
def transfer_global_lab (ref tgt : LabImage) : LabImage :=
  let fL := fun v => (v - npMean (tgt.map chL)) / floored_std (npStd (tgt.map chL))
    * npStd (ref.map chL) + npMean (ref.map chL)
  let fA := fun v => (v - npMean (tgt.map chA)) / floored_std (npStd (tgt.map chA))
    * npStd (ref.map chA) + npMean (ref.map chA)
  let fB := fun v => (v - npMean (tgt.map chB)) / floored_std (npStd (tgt.map chB))
    * npStd (ref.map chB) + npMean (ref.map chB)
  clamp_lab (tgt.map fun p => (fL (chL p), fA (chA p), fB (chB p)))

/-- `ColorTransferEngine._sigmoid`. -/
def sigmoid (x width : ℝ) : ℝ := 1 / (1 + Real.exp (-x / max width (1/10)))

/-- The per-pixel soft zone blend of the A and B channels shared by
`_transfer_zone_based` and `_transfer_improved`: per-zone Reinhard on
the chroma channels, mixed with renormalised sigmoid weights computed
from the pixel's L value. -/
def zone_ab_blend (rz tz : ZoneStats) (shadow_max highlight_min : ℝ) (p : LabPix) :
    ℝ × ℝ :=
  let sw0 := sigmoid (shadow_max - chL p) 8
  let hw0 := sigmoid (chL p - highlight_min) 8
  let mw0 := npClip (1 - sw0 - hw0) 0 1
  let wsum := max (sw0 + mw0 + hw0) (1/10^10)
  let sw := sw0 / wsum
  let mw := mw0 / wsum
  let hw := hw0 / wsum
  (sw * reinhard_channel (chA p) tz.shadows.A.mean tz.shadows.A.std
        rz.shadows.A.mean rz.shadows.A.std
    + mw * reinhard_channel (chA p) tz.midtones.A.mean tz.midtones.A.std
        rz.midtones.A.mean rz.midtones.A.std
    + hw * reinhard_channel (chA p) tz.highlights.A.mean tz.highlights.A.std
        rz.highlights.A.mean rz.highlights.A.std,
   sw * reinhard_channel (chB p) tz.shadows.B.mean tz.shadows.B.std
        rz.shadows.B.mean rz.shadows.B.std
    + mw * reinhard_channel (chB p) tz.midtones.B.mean tz.midtones.B.std
        rz.midtones.B.mean rz.midtones.B.std
    + hw * reinhard_channel (chB p) tz.highlights.B.mean tz.highlights.B.std
        rz.highlights.B.mean rz.highlights.B.std)

/-- `ColorTransferEngine._transfer_zone_based`: adaptive boundaries for
both images, per-zone Reinhard on A/B with soft weights, global Reinhard
(with a `max(std, 1e-6)` floor) on L, then clamp. -/
def transfer_zone_based (ref tgt : LabImage) : LabImage :=
  let rb := compute_zone_boundaries ref
  let tb := compute_zone_boundaries tgt
  let rz := extract_zone_stats ref rb.1 rb.2
  let tz := extract_zone_stats tgt tb.1 tb.2
  let rLm := npMean (ref.map chL)
  let rLs := npStd (ref.map chL)
  let tLm := npMean (tgt.map chL)
  let tLs := max (npStd (tgt.map chL)) (1/1000000)
  clamp_lab (tgt.map fun p =>
    let ab := zone_ab_blend rz tz tb.1 tb.2 p
    ((chL p - tLm) / tLs * rLs + rLm, ab.1, ab.2))

/-- `np.cumsum`. -/
def cumsum (l : List ℝ) : List ℝ := (l.scanl (· + ·) 0).tail

/-- The segment walk of `np.interp` once past the first point. -/
def np_interp_go (x : ℝ) : ℝ × ℝ → List (ℝ × ℝ) → ℝ
  | (_, ya), [] => ya
  | (xa, ya), (xb, yb) :: rest =>
    if rdec (x ≤ xb) then ya + (x - xa) * (yb - ya) / (xb - xa)
    else np_interp_go x (xb, yb) rest

/-- `np.interp(x, xp, fp)` over the (ascending) point list `xp.zip fp`:
clamps to the first/last value outside the range, linear inside. -/
def np_interp (x : ℝ) (pts : List (ℝ × ℝ)) : ℝ :=
  match pts with
  | [] => 0
  | (x0, y0) :: rest => if rdec (x < x0) then y0 else np_interp_go x (x0, y0) rest

/-- `int32` truncation toward zero. -/
def int_trunc (x : ℝ) : ℤ := if rdec (0 ≤ x) then ⌊x⌋ else ⌈x⌉

/-- `ColorTransferEngine._histogram_match_channel` (512 bins): CDF
alignment by linear interpolation, then per-value bin lookup. Returns
the mapped value for each source value. -/
def histogram_match_channel (src_vals ref_vals : List ℝ) (val_min val_max : ℝ) :
    List ℝ :=
  let bins : ℕ := 512
  let src_hist := hist_counts src_vals val_min val_max bins
  let ref_hist := hist_counts ref_vals val_min val_max bins
  let src_cdf := (cumsum src_hist).map fun c =>
    c / ((cumsum src_hist).getLastD 0 + 1/10^10)
  let ref_cdf := (cumsum ref_hist).map fun c =>
    c / ((cumsum ref_hist).getLastD 0 + 1/10^10)
  let ref_centers := (List.range bins).map fun k =>
    val_min + ((k : ℝ) + 1/2) * ((val_max - val_min) / bins)
  let lut := src_cdf.map fun c => np_interp c (ref_cdf.zip ref_centers)
  let bin_width := (val_max - val_min) / bins
  src_vals.map fun v =>
    let idx := min (max (int_trunc ((v - val_min) / bin_width)) 0) (bins - 1)
    lut.getD idx.toNat 0

/-- Rebuild pixels from three per-channel value lists. -/
def zip3_pix : List ℝ → List ℝ → List ℝ → LabImage
  | l :: ls, a :: as_, b :: bs => (l, a, b) :: zip3_pix ls as_ bs
  | _, _, _ => []

/-- `ColorTransferEngine._transfer_histogram`: per-channel histogram
matching over the fixed LAB ranges, then clamp. -/
def transfer_histogram (ref tgt : LabImage) : LabImage :=
  clamp_lab (zip3_pix
    (histogram_match_channel (tgt.map chL) (ref.map chL) 0 100)
    (histogram_match_channel (tgt.map chA) (ref.map chA) (-128) 127)
    (histogram_match_channel (tgt.map chB) (ref.map chB) (-128) 127))

/-- `ColorTransferEngine._transfer_improved`: histogram matching first,
then the zone blend of the A/B channels recomputed on the intermediate
image (L kept from step 1), then clamp. -/
def transfer_improved (ref tgt : LabImage) : LabImage :=
  let step1 := transfer_histogram ref tgt
  let rb := compute_zone_boundaries ref
  let sb := compute_zone_boundaries step1
  let rz := extract_zone_stats ref rb.1 rb.2
  let sz := extract_zone_stats step1 sb.1 sb.2
  clamp_lab (step1.map fun p =>
    let ab := zone_ab_blend rz sz sb.1 sb.2 p
    (chL p, ab.1, ab.2))

/-- The closed method enum replacing the string dispatch of
`ColorTransferEngine.METHODS`. -/
inductive TransferMethod where
  | global_lab : TransferMethod
  | zone_based : TransferMethod
  | histogram : TransferMethod
  | improved : TransferMethod
deriving DecidableEq

/-- Method dispatch of `ColorTransferEngine.transfer`. -/
def apply_method (m : TransferMethod) (ref tgt : LabImage) : LabImage :=
  match m with
  | TransferMethod.global_lab => transfer_global_lab ref tgt
  | TransferMethod.zone_based => transfer_zone_based ref tgt
  | TransferMethod.histogram => transfer_histogram ref tgt
  | TransferMethod.improved => transfer_improved ref tgt

end

/-! ### Engine pipeline: load, dispatch, preserve, blend, quantize -/

noncomputable section

/-- A uint8 RGB image as loaded from disk (flat pixel list). -/
abbrev RgbImage := List (ℕ × ℕ × ℕ)

/-- `ColorTransferEngine._load_image`: uint8 → float RGB in [0,1]. -/
def load_image (img : RgbImage) : List (ℝ × ℝ × ℝ) :=
  img.map fun p => ((p.1 : ℝ) / 255, (p.2.1 : ℝ) / 255, (p.2.2 : ℝ) / 255)

/-- The perceptual color-space converter (`skimage.color.rgb2lab` /
`lab2rgb`), an external primitive the spec treats as correct and
reversible; the engine is parametric in it. -/
structure ColorConverter where
  rgb2lab : ℝ × ℝ × ℝ → LabPix
  lab2rgb : LabPix → ℝ × ℝ × ℝ

/-- The LAB-stage of `ColorTransferEngine.transfer`: method dispatch,
optional luminance preservation, strength blending (skipped when
`strength ≥ 1`). -/
def transfer_lab_stage (m : TransferMethod) (strength : ℝ) (preserve : Bool)
    (ref_lab tgt_lab : LabImage) : LabImage :=
  let r0 := apply_method m ref_lab tgt_lab
  let r1 := if preserve then
      (tgt_lab.zip r0).map fun tr => (chL tr.1, chA tr.2, chB tr.2)
    else r0
  if rdec (strength < 1) then
    (tgt_lab.zip r1).map fun tr =>
      (chL tr.1 * (1 - strength) + chL tr.2 * strength,
       chA tr.1 * (1 - strength) + chA tr.2 * strength,
       chB tr.1 * (1 - strength) + chB tr.2 * strength)
  else r1

/-- `np.clip(rgb * 255, 0, 255).astype(np.uint8)` on one channel
(`astype` truncates). -/
def quantize_channel (v : ℝ) : ℕ := (⌊npClip (v * 255) 0 255⌋).toNat

def quantize_pix (p : ℝ × ℝ × ℝ) : ℕ × ℕ × ℕ :=
  (quantize_channel p.1, quantize_channel p.2.1, quantize_channel p.2.2)

structure TransferResult where
  result_image : RgbImage
  ref_stats : FullStats
  method : TransferMethod

/-- `ColorTransferEngine.transfer`: load both images, convert to LAB,
extract the reference statistics, run the LAB stage, convert back and
quantize (the single quantization step). -/
def transfer (conv : ColorConverter) (m : TransferMethod) (strength : ℝ)
    (preserve : Bool) (ref tgt : RgbImage) : TransferResult :=
  let ref_lab := (load_image ref).map conv.rgb2lab
  let tgt_lab := (load_image tgt).map conv.rgb2lab
  let stats := extract_full_stats ref_lab
  let result_lab := transfer_lab_stage m strength preserve ref_lab tgt_lab
  { result_image := (result_lab.map conv.lab2rgb).map quantize_pix,
    ref_stats := stats,
    method := m }

end

/-! ### Claim C1: clamped range invariant -/

/-- The legal perceptual-space range: channel 0 in [0,100], channels 1-2
in [-128,127]. -/
def in_lab_range (p : LabPix) : Prop :=
  0 ≤ p.1 ∧ p.1 ≤ 100 ∧ -128 ≤ p.2.1 ∧ p.2.1 ≤ 127 ∧ -128 ≤ p.2.2 ∧ p.2.2 ≤ 127

def all_in_lab_range (img : LabImage) : Prop := ∀ p ∈ img, in_lab_range p

lemma npClip_le (x lo hi : ℝ) : npClip x lo hi ≤ hi := min_le_right _ _

lemma le_npClip (x lo hi : ℝ) (h : lo ≤ hi) : lo ≤ npClip x lo hi :=
  le_min (le_max_right _ _) h

lemma clamp_pix_in_range (p : LabPix) : in_lab_range (clamp_pix p) := by
  unfold clamp_pix in_lab_range
  refine ⟨le_npClip _ _ _ (by norm_num), npClip_le _ _ _,
    le_npClip _ _ _ (by norm_num), npClip_le _ _ _,
    le_npClip _ _ _ (by norm_num), npClip_le _ _ _⟩

lemma clamp_lab_all (img : LabImage) : all_in_lab_range (clamp_lab img) := by
  intro p hp
  obtain ⟨q, -, rfl⟩ := List.mem_map.1 hp
  exact clamp_pix_in_range q

/-- C1. Every pixel of the image produced by any of the four transfer
algorithms, on any reference and target, lies in the legal perceptual
range — each algorithm clamps before returning. -/
theorem transfer_output_in_lab_range (ref tgt : LabImage) (m : TransferMethod) :
    all_in_lab_range (apply_method m ref tgt) := by
  cases m
  case global_lab =>
    unfold apply_method transfer_global_lab
    exact clamp_lab_all _
  case zone_based =>
    unfold apply_method transfer_zone_based
    exact clamp_lab_all _
  case histogram =>
    unfold apply_method transfer_histogram
    exact clamp_lab_all _
  case improved =>
    unfold apply_method transfer_improved
    exact clamp_lab_all _

/-! ### Claim C2: strength 0 is the identity -/

lemma zip3_pix_length (a b c : List ℝ) :
    (zip3_pix a b c).length = min a.length (min b.length c.length) := by
  induction a generalizing b c with
  | nil => cases b <;> cases c <;> simp [zip3_pix]
  | cons x xs ih =>
    cases b with
    | nil => simp [zip3_pix]
    | cons y ys =>
      cases c with
      | nil => simp [zip3_pix]
      | cons z zs =>
        simp [zip3_pix, ih]
        omega

lemma length_clamp_lab (img : LabImage) : (clamp_lab img).length = img.length := by
  simp [clamp_lab]

lemma length_transfer_histogram (ref tgt : LabImage) :
    (transfer_histogram ref tgt).length = tgt.length := by
  simp [transfer_histogram, clamp_lab, zip3_pix_length, histogram_match_channel]

lemma length_apply_method (m : TransferMethod) (ref tgt : LabImage) :
    (apply_method m ref tgt).length = tgt.length := by
  cases m
  case global_lab => simp [apply_method, transfer_global_lab, clamp_lab]
  case zone_based => simp [apply_method, transfer_zone_based, clamp_lab]
  case histogram => exact length_transfer_histogram ref tgt
  case improved =>
    simp [apply_method, transfer_improved, clamp_lab, length_transfer_histogram]

lemma transfer_lab_stage_zero (m : TransferMethod) (preserve : Bool)
    (ref_lab tgt_lab : LabImage) :
    transfer_lab_stage m 0 preserve ref_lab tgt_lab = tgt_lab := by
  unfold transfer_lab_stage
  rw [rdec_of _ (by norm_num : (0 : ℝ) < 1)]
  have hfun : (fun tr : LabPix × LabPix =>
      (chL tr.1 * (1 - (0 : ℝ)) + chL tr.2 * 0,
       chA tr.1 * (1 - (0 : ℝ)) + chA tr.2 * 0,
       chB tr.1 * (1 - (0 : ℝ)) + chB tr.2 * 0)) = Prod.fst := by
    funext tr
    obtain ⟨⟨x, y, z⟩, q⟩ := tr
    simp [chL, chA, chB]
  have hr0 : (apply_method m ref_lab tgt_lab).length = tgt_lab.length :=
    length_apply_method m ref_lab tgt_lab
  have hlen : (if preserve then
      ((tgt_lab.zip (apply_method m ref_lab tgt_lab)).map fun tr =>
        (chL tr.1, chA tr.2, chB tr.2))
    else apply_method m ref_lab tgt_lab).length = tgt_lab.length := by
    cases preserve <;> simp [hr0]
  simp only [if_true]
  rw [hfun]
  exact List.map_fst_zip _ _ (le_of_eq hlen.symm)

lemma quantize_channel_of_natcast (n : ℕ) (hn : n ≤ 255) :
    quantize_channel ((n : ℝ) / 255) = n := by
  unfold quantize_channel npClip
  have h1 : ((n : ℝ) / 255) * 255 = (n : ℝ) := by field_simp
  rw [h1, max_eq_left (by positivity), min_eq_left (by exact_mod_cast hn),
    Int.floor_natCast]
  simp

/-- C2. `transfer` with `strength = 0` returns the target image exactly,
for every method, luminance flag, reference and target, provided the
color-space converter inverts itself (the property the spec requires of
it) and the target pixels are valid uint8 values. -/
theorem transfer_strength_zero (conv : ColorConverter) (m : TransferMethod)
    (preserve : Bool) (ref tgt : RgbImage)
    (hinv : ∀ p, conv.lab2rgb (conv.rgb2lab p) = p)
    (hpix : ∀ p ∈ tgt, p.1 ≤ 255 ∧ p.2.1 ≤ 255 ∧ p.2.2 ≤ 255) :
    (transfer conv m 0 preserve ref tgt).result_image = tgt := by
  unfold transfer
  simp only
  rw [transfer_lab_stage_zero]
  rw [List.map_map, List.map_map]
  have : tgt.map (quantize_pix ∘ conv.lab2rgb ∘ conv.rgb2lab ∘ fun p =>
      ((p.1 : ℝ) / 255, (p.2.1 : ℝ) / 255, (p.2.2 : ℝ) / 255)) = tgt.map id := by
    apply List.map_congr_left
    intro p hp
    obtain ⟨h1, h2, h3⟩ := hpix p hp
    simp only [Function.comp_apply, hinv, id_eq]
    unfold quantize_pix
    obtain ⟨a, b, c⟩ := p
    simp only
    rw [quantize_channel_of_natcast _ h1, quantize_channel_of_natcast _ h2,
      quantize_channel_of_natcast _ h3]
  unfold load_image
  rw [List.map_map]
  calc tgt.map (quantize_pix ∘ conv.lab2rgb ∘ conv.rgb2lab ∘ fun p =>
        ((p.1 : ℝ) / 255, (p.2.1 : ℝ) / 255, (p.2.2 : ℝ) / 255))
      = tgt.map id := this
    _ = tgt := List.map_id tgt

/-- C2 witness: the identity converter on a one-pixel target. -/
theorem transfer_strength_zero_witness :
    (∀ p, (ColorConverter.mk id id).lab2rgb ((ColorConverter.mk id id).rgb2lab p) = p) ∧
    (∀ p ∈ ([(10, 20, 30)] : RgbImage), p.1 ≤ 255 ∧ p.2.1 ≤ 255 ∧ p.2.2 ≤ 255) ∧
    (transfer (ColorConverter.mk id id) TransferMethod.improved 0 true
      [] [(10, 20, 30)]).result_image = [(10, 20, 30)] :=
  ⟨fun _ => rfl, by decide,
    transfer_strength_zero (ColorConverter.mk id id) TransferMethod.improved true
      [] [(10, 20, 30)] (fun _ => rfl) (by decide)⟩

/-! ### Claim C10: reference statistics depend only on the reference -/

/-- C10. The `ref_stats` field of a `transfer` call is a function of the
reference image alone: calls sharing a reference but differing in
target, method, strength and luminance flag return identical statistics
(global, zone, histogram and zone-boundary). -/
theorem ref_stats_depend_only_on_reference (conv : ColorConverter)
    (ref tgt₁ tgt₂ : RgbImage) (m₁ m₂ : TransferMethod) (s₁ s₂ : ℝ)
    (p₁ p₂ : Bool) :
    (transfer conv m₁ s₁ p₁ ref tgt₁).ref_stats
      = (transfer conv m₂ s₂ p₂ ref tgt₂).ref_stats := rfl

/-! ### Claim C3: uniform gray target against uniform orange reference -/

lemma npMean_replicate (n : ℕ) (hn : n ≠ 0) (c : ℝ) :
    npMean (List.replicate n c) = c := by
  unfold npMean
  rw [List.sum_replicate, List.length_replicate, nsmul_eq_mul]
  field_simp

lemma npVar_replicate (n : ℕ) (c : ℝ) : npVar (List.replicate n c) = 0 := by
  cases n with
  | zero => simp [npVar, npMean]
  | succ k =>
    have hm : npMean (List.replicate (k + 1) c) = c :=
      npMean_replicate _ (Nat.succ_ne_zero k) c
    unfold npVar
    simp only [hm, List.map_replicate, sub_self]
    simp [npMean_replicate (k + 1) (Nat.succ_ne_zero k)]

lemma npStd_replicate (n : ℕ) (c : ℝ) : npStd (List.replicate n c) = 0 := by
  unfold npStd
  rw [npVar_replicate]
  exact Real.sqrt_zero

lemma clamp_pix_id (p : LabPix) (h : in_lab_range p) : clamp_pix p = p := by
  obtain ⟨x, y, z⟩ := p
  obtain ⟨h1, h2, h3, h4, h5, h6⟩ := h
  unfold clamp_pix npClip
  simp only
  rw [max_eq_left h1, min_eq_left h2, max_eq_left h3, min_eq_left h4,
    max_eq_left h5, min_eq_left h6]

lemma transfer_global_lab_uniform (n : ℕ) (hn : n ≠ 0) (rp tp : LabPix)
    (hr : in_lab_range rp) :
    transfer_global_lab (List.replicate n rp) (List.replicate n tp)
      = List.replicate n rp := by
  unfold transfer_global_lab clamp_lab
  simp only [List.map_replicate, npMean_replicate n hn, npStd_replicate]
  simp only [sub_self, zero_div, zero_mul, mul_zero, zero_add, add_zero]
  have hrp : ((chL rp : ℝ), chA rp, chB rp) = rp := by
    obtain ⟨a, b, c⟩ := rp
    rfl
  rw [hrp, clamp_pix_id _ hr]

/-- C3. For the 4×4 solid mid-gray target (RGB `[128,128,128]`) against
the solid warm-orange reference (RGB `[200,140,80]`), `global_lab` at
strength 1 yields a uniform LAB output, every pixel (hence the
perceptual-space mean) equal to the reference's LAB mean; the target's
per-channel std is 0 and the epsilon floor turns all three divisors into
the nonzero `1e-6`, so no division by zero occurs. -/
theorem global_lab_uniform_scenario (conv : ColorConverter)
    (hrange : in_lab_range (conv.rgb2lab ((200 : ℝ)/255, (140 : ℝ)/255, (80 : ℝ)/255))) :
    let refp := conv.rgb2lab ((200 : ℝ)/255, (140 : ℝ)/255, (80 : ℝ)/255)
    let tgtp := conv.rgb2lab ((128 : ℝ)/255, (128 : ℝ)/255, (128 : ℝ)/255)
    let result := transfer_lab_stage TransferMethod.global_lab 1 false
      (List.replicate 16 refp) (List.replicate 16 tgtp)
    result = List.replicate 16 refp ∧
    (npMean (result.map chL), npMean (result.map chA), npMean (result.map chB))
      = (npMean ((List.replicate 16 refp).map chL),
         npMean ((List.replicate 16 refp).map chA),
         npMean ((List.replicate 16 refp).map chB)) ∧
    floored_std (npStd ((List.replicate 16 tgtp).map chL)) = 1/1000000 ∧
    floored_std (npStd ((List.replicate 16 tgtp).map chA)) = 1/1000000 ∧
    floored_std (npStd ((List.replicate 16 tgtp).map chB)) = 1/1000000 ∧
    (1/1000000 : ℝ) ≠ 0 := by
  intro refp tgtp result
  have hstage : result = transfer_global_lab (List.replicate 16 refp)
      (List.replicate 16 tgtp) := by
    show transfer_lab_stage TransferMethod.global_lab 1 false _ _ = _
    unfold transfer_lab_stage
    rw [rdec_of_not _ (lt_irrefl (1 : ℝ))]
    rfl
  have huni := transfer_global_lab_uniform 16 (by norm_num) refp tgtp hrange
  have hres : result = List.replicate 16 refp := hstage.trans huni
  refine ⟨hres, by rw [hres], ?_, ?_, ?_, by norm_num⟩ <;>
    · simp only [List.map_replicate, npStd_replicate]
      unfold floored_std
      rw [rdec_of _ (by norm_num : (0 : ℝ) < 1/1000000)]
      simp

/-- C3 witness: a concrete converter sending every RGB triple to the
in-range LAB value `(60, 15, 35)`. -/
theorem global_lab_uniform_scenario_witness :
    in_lab_range ((ColorConverter.mk (fun _ => ((60 : ℝ), 15, 35)) (fun p => p)).rgb2lab
      ((200 : ℝ)/255, (140 : ℝ)/255, (80 : ℝ)/255)) ∧
    transfer_lab_stage TransferMethod.global_lab 1 false
        (List.replicate 16 ((60 : ℝ), 15, 35)) (List.replicate 16 ((60 : ℝ), 15, 35))
      = List.replicate 16 ((60 : ℝ), 15, 35) := by
  have h : in_lab_range ((60 : ℝ), 15, 35) := by
    unfold in_lab_range
    norm_num
  exact ⟨h, (global_lab_uniform_scenario
    (ColorConverter.mk (fun _ => ((60 : ℝ), 15, 35)) (fun p => p)) h).1⟩

/-! ### Claim C7: zone partition and zone statistics -/

/-- C7 (amended). With boundaries `shadow_max ≤ highlight_min`, the three
code masks partition `[0, 100)` — every pixel with channel-0 value in
`[0, 100)` falls in exactly one zone (the code's highlight mask is
`[highlight_min, 100)`, excluding the value 100 itself, unlike the
claim's closed interval); each zone reports the masked per-channel
mean/std and its fraction of the total pixels, except that a zone with
fewer than 10 pixels reports the whole-image mean/std with fraction 0. -/
theorem zone_stats_partition (lab : LabImage) (sm hm : ℝ) (hle : sm ≤ hm) :
    (∀ L : ℝ, 0 ≤ L → L < 100 →
      (in_zone 0 sm L ∨ in_zone sm hm L ∨ in_zone hm 100 L) ∧
      ¬(in_zone 0 sm L ∧ in_zone sm hm L) ∧
      ¬(in_zone 0 sm L ∧ in_zone hm 100 L) ∧
      ¬(in_zone sm hm L ∧ in_zone hm 100 L)) ∧
    extract_zone_stats lab sm hm
      = { shadows := zone_channel_stats lab 0 sm,
          midtones := zone_channel_stats lab sm hm,
          highlights := zone_channel_stats lab hm 100 } ∧
    (∀ lo hi : ℝ, (zone_mask lab lo hi).length < 10 →
      zone_channel_stats lab lo hi
        = { L := ⟨npMean (lab.map chL), npStd (lab.map chL)⟩,
            A := ⟨npMean (lab.map chA), npStd (lab.map chA)⟩,
            B := ⟨npMean (lab.map chB), npStd (lab.map chB)⟩,
            pixel_fraction := 0 }) ∧
    (∀ lo hi : ℝ, 10 ≤ (zone_mask lab lo hi).length →
      zone_channel_stats lab lo hi
        = { L := ⟨npMean ((zone_mask lab lo hi).map chL),
                  npStd ((zone_mask lab lo hi).map chL)⟩,
            A := ⟨npMean ((zone_mask lab lo hi).map chA),
                  npStd ((zone_mask lab lo hi).map chA)⟩,
            B := ⟨npMean ((zone_mask lab lo hi).map chB),
                  npStd ((zone_mask lab lo hi).map chB)⟩,
            pixel_fraction := ((zone_mask lab lo hi).length : ℝ) / (lab.length : ℝ) }) := by
  refine ⟨?_, rfl, ?_, ?_⟩
  · intro L h0 h100
    unfold in_zone
    refine ⟨?_, ?_, ?_, ?_⟩
    · rcases lt_or_le L sm with h | h
      · exact Or.inl ⟨h0, h⟩
      · rcases lt_or_le L hm with h' | h'
        · exact Or.inr (Or.inl ⟨h, h'⟩)
        · exact Or.inr (Or.inr ⟨h', h100⟩)
    · rintro ⟨⟨-, h1⟩, h2, -⟩
      linarith
    · rintro ⟨⟨-, h1⟩, h2, -⟩
      linarith
    · rintro ⟨⟨-, h1⟩, h2, -⟩
      linarith
  · intro lo hi h
    simp only [zone_channel_stats]
    rw [if_pos h]
  · intro lo hi h
    simp only [zone_channel_stats]
    rw [if_neg (not_lt.2 h)]

/-- C7 witness: the partition at boundaries 33/66 and pixel value 50,
which falls in the midtone zone only. -/
theorem zone_stats_partition_witness :
    (33 : ℝ) ≤ 66 ∧ (0 : ℝ) ≤ 50 ∧ (50 : ℝ) < 100 ∧
    ((in_zone 0 33 (50 : ℝ) ∨ in_zone 33 66 (50 : ℝ) ∨ in_zone 66 100 (50 : ℝ)) ∧
      ¬(in_zone 0 33 (50 : ℝ) ∧ in_zone 33 66 (50 : ℝ)) ∧
      ¬(in_zone 0 33 (50 : ℝ) ∧ in_zone 66 100 (50 : ℝ)) ∧
      ¬(in_zone 33 66 (50 : ℝ) ∧ in_zone 66 100 (50 : ℝ))) :=
  ⟨by norm_num, by norm_num, by norm_num,
    (zone_stats_partition [] 33 66 (by norm_num)).1 50 (by norm_num) (by norm_num)⟩

/-- C7 counterexample: a pixel with channel-0 value exactly 100 — a
legal perceptual value, inside the claim's highlight zone
`[highlight_min, 100]` — satisfies none of the three zone masks, so it
is counted in zero zones rather than exactly one. -/
theorem zone_partition_misses_white :
    (0 : ℝ) ≤ 100 ∧ (100 : ℝ) ≤ 100 ∧ (33 : ℝ) < 66 ∧
    ¬(in_zone 0 33 (100 : ℝ) ∨ in_zone 33 66 (100 : ℝ) ∨ in_zone 66 100 (100 : ℝ)) := by
  unfold in_zone
  norm_num

/-! ## Preset exporter (`xmp_exporter.py`): split toning / color grading -/

noncomputable section

/-- `np.arctan2(y, x)`, the angle of the point `(x, y)` in `(-π, π]`. -/
def arctan2 (y x : ℝ) : ℝ := Complex.arg { re := x, im := y }

/-- `XMPExporter._ab_to_hue`: degrees of `arctan2(b, a)`, shifted by 360
when negative. -/
def ab_to_hue (a b : ℝ) : ℝ :=
  let hue := (180 / Real.pi) * arctan2 b a
  if rdec (hue < 0) then hue + 360 else hue

/-- `XMPExporter._clamp`: `max(lo, min(hi, value))`. -/
def xmp_clamp (v lo hi : ℝ) : ℝ := max lo (min hi v)

/-- Python `int()` on a float: truncation toward zero. -/
def py_int (x : ℝ) : ℤ := if rdec (0 ≤ x) then ⌊x⌋ else ⌈x⌉

/-- The split-toning / color-grading fields `_compute_split_toning`
derives (the always-constant fields carry their fixed values). -/
structure SplitToning where
  shadow_hue : ℤ
  shadow_sat : ℤ
  highlight_hue : ℤ
  highlight_sat : ℤ
  balance : ℤ
  midtone_hue : ℤ
  midtone_sat : ℤ
  blending : ℤ

/-- `XMPExporter._compute_split_toning`: per zone, hue from the chroma
means via `_ab_to_hue`, saturation as the clamped scaled magnitude
(scale 1.5 for shadows/highlights, 1.0 for midtones), zeroed below the
threshold 2, all cast with `int()`. -/
def compute_split_toning (zs : ZoneStats) : SplitToning :=
  let shadow_hue := ab_to_hue zs.shadows.A.mean zs.shadows.B.mean
  let shadow_sat0 := xmp_clamp
    (Real.sqrt (zs.shadows.A.mean ^ 2 + zs.shadows.B.mean ^ 2) * (3/2)) 0 100
  let shadow_sat := if rdec (shadow_sat0 < 2) then (0 : ℝ) else shadow_sat0
  let highlight_hue := ab_to_hue zs.highlights.A.mean zs.highlights.B.mean
  let highlight_sat0 := xmp_clamp
    (Real.sqrt (zs.highlights.A.mean ^ 2 + zs.highlights.B.mean ^ 2) * (3/2)) 0 100
  let highlight_sat := if rdec (highlight_sat0 < 2) then (0 : ℝ) else highlight_sat0
  let midtone_hue := ab_to_hue zs.midtones.A.mean zs.midtones.B.mean
  let midtone_sat0 := xmp_clamp
    (Real.sqrt (zs.midtones.A.mean ^ 2 + zs.midtones.B.mean ^ 2) * 1) 0 100
  let midtone_sat := if rdec (midtone_sat0 < 2) then (0 : ℝ) else midtone_sat0
  { shadow_hue := py_int shadow_hue,
    shadow_sat := py_int shadow_sat,
    highlight_hue := py_int highlight_hue,
    highlight_sat := py_int highlight_sat,
    balance := 0,
    midtone_hue := py_int midtone_hue,
    midtone_sat := py_int midtone_sat,
    blending := 50 }

lemma ab_to_hue_range (a b : ℝ) : 0 ≤ ab_to_hue a b ∧ ab_to_hue a b < 360 := by
  unfold ab_to_hue arctan2
  have hpi := Real.pi_pos
  have harg_le : Complex.arg { re := a, im := b } ≤ Real.pi := Complex.arg_le_pi _
  have harg_gt : -Real.pi < Complex.arg { re := a, im := b } :=
    Complex.neg_pi_lt_arg _
  have hub : (180 / Real.pi) * Complex.arg { re := a, im := b } ≤ 180 := by
    calc (180 / Real.pi) * Complex.arg { re := a, im := b }
        ≤ (180 / Real.pi) * Real.pi := by
          exact mul_le_mul_of_nonneg_left harg_le (by positivity)
      _ = 180 := by field_simp
  have hlb : (-180 : ℝ) < (180 / Real.pi) * Complex.arg { re := a, im := b } := by
    have h1 : (180 / Real.pi) * (-Real.pi)
        < (180 / Real.pi) * Complex.arg { re := a, im := b } :=
      mul_lt_mul_of_pos_left harg_gt (by positivity)
    have h2 : (180 / Real.pi) * (-Real.pi) = -180 := by field_simp
    linarith
  by_cases hc : rdec ((180 / Real.pi) * Complex.arg { re := a, im := b } < 0) = true
  · rw [if_pos hc]
    have := (rdec_iff _).1 hc
    constructor <;> linarith
  · rw [if_neg hc]
    have : ¬ ((180 / Real.pi) * Complex.arg { re := a, im := b } < 0) :=
      fun hp => hc (rdec_of _ hp)
    constructor <;> linarith

lemma py_int_of_nonneg (x : ℝ) (h : 0 ≤ x) : py_int x = ⌊x⌋ := by
  unfold py_int
  rw [if_pos (rdec_of _ h)]

lemma xmp_clamp_mem (v : ℝ) : 0 ≤ xmp_clamp v 0 100 ∧ xmp_clamp v 0 100 ≤ 100 :=
  ⟨le_max_left _ _, max_le (by norm_num) (min_le_left _ _)⟩

lemma toning_sat_spec (mag : ℝ) :
    py_int (if rdec (xmp_clamp mag 0 100 < 2) then (0 : ℝ) else xmp_clamp mag 0 100)
      = (if rdec (xmp_clamp mag 0 100 < 2) then 0 else ⌊xmp_clamp mag 0 100⌋) ∧
    0 ≤ py_int (if rdec (xmp_clamp mag 0 100 < 2) then (0 : ℝ) else xmp_clamp mag 0 100) ∧
    py_int (if rdec (xmp_clamp mag 0 100 < 2) then (0 : ℝ) else xmp_clamp mag 0 100)
      ≤ 100 := by
  obtain ⟨h0, h100⟩ := xmp_clamp_mem mag
  by_cases hc : rdec (xmp_clamp mag 0 100 < 2) = true
  · simp only [if_pos hc]
    rw [py_int_of_nonneg 0 le_rfl]
    norm_num
  · simp only [if_neg hc]
    rw [py_int_of_nonneg _ h0]
    refine ⟨rfl, Int.le_floor.2 (by exact_mod_cast h0), ?_⟩
    have := Int.floor_le_floor h100
    simpa using this

/-- C9. For every zone-statistics record, each derived split-toning /
color-grading tint has hue `_ab_to_hue(A_mean, B_mean)` — the degrees
of `atan2(b, a)` normalised into `[0, 360)` — and saturation the scaled
magnitude `√(a² + b²)` clamped to `[0, 100]`, zeroed whenever it falls
below the threshold 2; the stored integer fields are the `int()`
truncations (floors) of those values, and every saturation field lies in
`[0, 100]`. -/
theorem split_toning_spec (zs : ZoneStats) :
    (0 ≤ ab_to_hue zs.shadows.A.mean zs.shadows.B.mean ∧
      ab_to_hue zs.shadows.A.mean zs.shadows.B.mean < 360 ∧
      (compute_split_toning zs).shadow_hue
        = ⌊ab_to_hue zs.shadows.A.mean zs.shadows.B.mean⌋ ∧
      (compute_split_toning zs).shadow_sat
        = (if rdec (xmp_clamp
            (Real.sqrt (zs.shadows.A.mean ^ 2 + zs.shadows.B.mean ^ 2) * (3/2)) 0 100 < 2)
          then 0
          else ⌊xmp_clamp
            (Real.sqrt (zs.shadows.A.mean ^ 2 + zs.shadows.B.mean ^ 2) * (3/2)) 0 100⌋) ∧
      0 ≤ (compute_split_toning zs).shadow_sat ∧
      (compute_split_toning zs).shadow_sat ≤ 100) ∧
    (0 ≤ ab_to_hue zs.highlights.A.mean zs.highlights.B.mean ∧
      ab_to_hue zs.highlights.A.mean zs.highlights.B.mean < 360 ∧
      (compute_split_toning zs).highlight_hue
        = ⌊ab_to_hue zs.highlights.A.mean zs.highlights.B.mean⌋ ∧
      (compute_split_toning zs).highlight_sat
        = (if rdec (xmp_clamp
            (Real.sqrt (zs.highlights.A.mean ^ 2 + zs.highlights.B.mean ^ 2) * (3/2)) 0 100 < 2)
          then 0
          else ⌊xmp_clamp
            (Real.sqrt (zs.highlights.A.mean ^ 2 + zs.highlights.B.mean ^ 2) * (3/2)) 0 100⌋) ∧
      0 ≤ (compute_split_toning zs).highlight_sat ∧
      (compute_split_toning zs).highlight_sat ≤ 100) ∧
    (0 ≤ ab_to_hue zs.midtones.A.mean zs.midtones.B.mean ∧
      ab_to_hue zs.midtones.A.mean zs.midtones.B.mean < 360 ∧
      (compute_split_toning zs).midtone_hue
        = ⌊ab_to_hue zs.midtones.A.mean zs.midtones.B.mean⌋ ∧
      (compute_split_toning zs).midtone_sat
        = (if rdec (xmp_clamp
            (Real.sqrt (zs.midtones.A.mean ^ 2 + zs.midtones.B.mean ^ 2) * 1) 0 100 < 2)
          then 0
          else ⌊xmp_clamp
            (Real.sqrt (zs.midtones.A.mean ^ 2 + zs.midtones.B.mean ^ 2) * 1) 0 100⌋) ∧
      0 ≤ (compute_split_toning zs).midtone_sat ∧
      (compute_split_toning zs).midtone_sat ≤ 100) := by
  refine ⟨⟨(ab_to_hue_range _ _).1, (ab_to_hue_range _ _).2, ?_, ?_, ?_, ?_⟩,
    ⟨(ab_to_hue_range _ _).1, (ab_to_hue_range _ _).2, ?_, ?_, ?_, ?_⟩,
    ⟨(ab_to_hue_range _ _).1, (ab_to_hue_range _ _).2, ?_, ?_, ?_, ?_⟩⟩
  · exact py_int_of_nonneg _ (ab_to_hue_range _ _).1
  · exact (toning_sat_spec _).1
  · exact (toning_sat_spec _).2.1
  · exact (toning_sat_spec _).2.2
  · exact py_int_of_nonneg _ (ab_to_hue_range _ _).1
  · exact (toning_sat_spec _).1
  · exact (toning_sat_spec _).2.1
  · exact (toning_sat_spec _).2.2
  · exact py_int_of_nonneg _ (ab_to_hue_range _ _).1
  · exact (toning_sat_spec _).1
  · exact (toning_sat_spec _).2.1
  · exact (toning_sat_spec _).2.2

end
